import Mathlib

/-!
# Verification of the `retry` package

A shallow embedding of `retry.go` (package `retry`): exponential backoff with
jitter around a caller-supplied fallible operation.

Modelling conventions:

* `time.Duration` values (`Base`, `MaxInterval`, `MaxWait`) are integers (`ℤ`,
  nanoseconds); the `float64` fields of the `Doer` (`base`, `maxInterval`,
  `exponent`, `jitter`) are rationals (`ℚ`), so all real arithmetic is exact.
* Go's `float64 → time.Duration` conversion truncates toward zero; `goTrunc`
  models it.
* The operation `fn` is a function from the invocation index to `Option ε`
  (`none` = success, `some e` = failure with error `e`); a `nil` operation is
  the `none` case of an outer `Option`.
* The `math/rand` generator is modelled as a semantics `stream : ℤ → ℕ → ℚ`
  mapping a seed to the sequence of `Float64()` draws; where a claim needs it
  we hypothesise each draw lies in `[0, 1)`, which Go's `Float64` guarantees.
* Besides the two Go return values (`errs`, overall error, here `Outcome`),
  `DoResult` records the side effects of a call: the list of durations passed
  to `time.Sleep` and the number of invocations of `fn`.
-/

namespace Retry

/-- The five mutually exclusive overall results of `Do`: `nil` (success),
`ErrCancelled`, `ErrTimeout`, `ErrMaxAttempts`, `errNoFunc`. -/
inductive Outcome
  | success
  | cancelled
  | timedOut
  | maxAttempts
  | noFunc
deriving DecidableEq, Repr

/-- The six validation errors `New` can return, each naming the offending
field (or field pair) of `Options`. -/
inductive ConfigError
  | attempts
  | base
  | maxIntervalVsBase
  | maxWaitVsBase
  | exponent
  | jitter
deriving DecidableEq, Repr

/-- `Options` as passed to `New`: `Attempts` is a Go `int`; the three
durations are `time.Duration` (int64 nanoseconds); `Exponent` and `Jitter`
are `float64`, modelled as `ℚ`. -/
structure Options where
  attempts : ℤ
  base : ℤ
  maxInterval : ℤ
  maxWait : ℤ
  exponent : ℚ
  jitter : ℚ

/-- The `Doer` struct built by `New`: `base`, `maxInterval`, `exponent`,
`jitter` are `float64` fields; `attempts` a Go `int`; `maxWait` a
`time.Duration`; `seed` an `int64`; `retry` the optional policy callback
(`nil` modelled as `none`). The `sync.Mutex` has no data content and is
omitted; the locking discipline around `seed` is discussed at `callDo`. -/
structure Doer (ε : Type) where
  base : ℚ
  maxInterval : ℚ
  exponent : ℚ
  jitter : ℚ
  attempts : ℤ
  maxWait : ℤ
  seed : ℤ
  retry : Option (ε → Bool)

/-- The guard `d.retry != nil && !d.retry(err)` deciding early cancellation. -/
def Doer.retryBlocks (d : Doer ε) (e : ε) : Bool :=
  match d.retry with
  | none => false
  | some p => !(p e)

/-- `New(retry, o)`: the six validation checks in source order, else the
constructed `Doer`.  `now` stands for `time.Now().UnixNano()`, the only
impure input of `New`. -/
def New (now : ℤ) (retry : Option (ε → Bool)) (o : Options) :
    Except ConfigError (Doer ε) :=
  if o.attempts < 1 then .error .attempts
  else if o.base ≤ 0 then .error .base
  else if o.maxInterval < o.base then .error .maxIntervalVsBase
  else if o.maxWait < o.base then .error .maxWaitVsBase
  else if o.exponent < 1 then .error .exponent
  else if o.jitter < 0 ∨ o.jitter > 1 then .error .jitter
  else .ok {
    base := (o.base : ℚ)
    maxInterval := (o.maxInterval : ℚ)
    exponent := o.exponent
    jitter := o.jitter
    attempts := o.attempts
    maxWait := o.maxWait
    seed := now
    retry := retry }

/-- Go's numeric conversion `time.Duration(sleep)` from `float64`:
truncation toward zero. -/
def goTrunc (q : ℚ) : ℤ :=
  if 0 ≤ q then ⌊q⌋ else ⌈q⌉

/-- Lines 291–295 of `retry.go`: `sleep := base * exponent^attempt`, capped
at `maxInterval`, then scaled by `1 - u * jitter` where `u` is the
`Float64()` draw for this attempt. -/
def computeSleep (d : Doer ε) (attempt : ℕ) (u : ℚ) : ℚ :=
  min d.maxInterval (d.base * d.exponent ^ attempt) * (1 - u * d.jitter)

/-- What one call of `Do` returns and does: `errs` and `outcome` are the two
Go return values; `slept` records the durations passed to `time.Sleep`
in order; `calls` counts the invocations of `fn`. -/
structure DoResult (ε : Type) where
  errs : List ε
  outcome : Outcome
  slept : List ℤ
  calls : ℕ
deriving DecidableEq, Repr

/-- The `for attempt := 0; attempt < d.attempts; attempt++` loop of `Do`,
with the remaining iteration count `fuel` made explicit
(`fuel = d.attempts.toNat - attempt` throughout a run).  Each iteration:
invoke `fn`; on success return; record the error; consult the policy; compute
the delay; add its truncation to `total`; time out if `total` strictly
exceeds `maxWait`, else sleep and continue. -/
def doLoop (d : Doer ε) (fn : ℕ → Option ε) (u : ℕ → ℚ) :
    ℕ → ℕ → ℤ → List ε → List ℤ → DoResult ε
  | 0, attempt, _, errs, slept => ⟨errs, .maxAttempts, slept, attempt⟩
  | fuel + 1, attempt, total, errs, slept =>
    match fn attempt with
    | none => ⟨errs, .success, slept, attempt + 1⟩
    | some e =>
      if d.retryBlocks e then ⟨errs ++ [e], .cancelled, slept, attempt + 1⟩
      else if d.maxWait < total + goTrunc (computeSleep d attempt (u attempt)) then
        ⟨errs ++ [e], .timedOut, slept, attempt + 1⟩
      else
        doLoop d fn u fuel (attempt + 1)
          (total + goTrunc (computeSleep d attempt (u attempt)))
          (errs ++ [e])
          (slept ++ [goTrunc (computeSleep d attempt (u attempt))])

/-- Lines 272–274: the effect of `d.seed++` on the method's local receiver
copy (the receiver of `Do` is a value, so this acts on a copy of the
caller's `Doer`, never on the caller's own). -/
def seedUpdate (d : Doer ε) : Doer ε :=
  { d with seed := d.seed + 1 }

/-- Line 275: the argument of `rand.NewSource` in a call whose receiver copy
started as `d` — the copy's seed after the increment. -/
def genSeed (d : Doer ε) : ℤ :=
  (seedUpdate d).seed

/-- The body of `Do`: the `nil` check, then the retry loop driven by the
private generator `stream (genSeed d)`.  Only the result is returned; the
receiver is a copy that is discarded (see `callDo`). -/
def Do (d : Doer ε) (fn : Option (ℕ → Option ε)) (stream : ℤ → ℕ → ℚ) :
    DoResult ε :=
  match fn with
  | none => ⟨[], .noFunc, [], 0⟩
  | some f => doLoop d f (stream (genSeed d)) d.attempts.toNat 0 0 [] []

/-- The call `cell.Do(fn)` as seen by the caller: `Do` has a value receiver
(`func (d Doer) Do`, line 260) and no pointer to the receiver escapes the
body, so by Go's call semantics the body runs on a copy and the caller's
`Doer` is returned unchanged alongside the result.  The mutation the body
performs on its copy is `seedUpdate`. -/
def callDo (cell : Doer ε) (fn : Option (ℕ → Option ε))
    (stream : ℤ → ℕ → ℚ) : Doer ε × DoResult ε :=
  (cell, Do cell fn stream)

/-- The truncated duration accumulated into `total` (and slept) for attempt
index `k` of a run driven by the draw sequence `u`. -/
def delaySeq (d : Doer ε) (u : ℕ → ℚ) (k : ℕ) : ℤ :=
  goTrunc (computeSleep d k (u k))

/-- Running total of the first `m` truncated delays — the value of `total`
when the loop reaches attempt index `m`. -/
def sumDelays (d : Doer ε) (u : ℕ → ℚ) : ℕ → ℤ
  | 0 => 0
  | m + 1 => sumDelays d u m + delaySeq d u m

/-- The spec's six construction invariants, conjoined. -/
def validOptions (o : Options) : Prop :=
  1 ≤ o.attempts ∧ 0 < o.base ∧ o.base ≤ o.maxInterval ∧ o.base ≤ o.maxWait ∧
    1 ≤ o.exponent ∧ 0 ≤ o.jitter ∧ o.jitter ≤ 1

/-- The spec's wording of the validation order: the first violated invariant
in the fixed order attempts, base, maxInterval-vs-base, maxWait-vs-base,
exponent, jitter; `none` when all six invariants hold. -/
def specFirstViolation (o : Options) : Option ConfigError :=
  if ¬ 1 ≤ o.attempts then some .attempts
  else if ¬ 0 < o.base then some .base
  else if ¬ o.base ≤ o.maxInterval then some .maxIntervalVsBase
  else if ¬ o.base ≤ o.maxWait then some .maxWaitVsBase
  else if ¬ 1 ≤ o.exponent then some .exponent
  else if ¬ (0 ≤ o.jitter ∧ o.jitter ≤ 1) then some .jitter
  else none

/-! ## Helper lemmas -/

/-- Truncation of an integral rational is the integer itself. -/
lemma goTrunc_intCast (z : ℤ) : goTrunc (z : ℚ) = z := by
  unfold goTrunc
  by_cases h : (0 : ℚ) ≤ (z : ℚ)
  · simp [h]
  · simp [h]

/-- `filterMap` over a list on which `f` is everywhere defined keeps the
length. -/
lemma length_filterMap_of_isSome {α β : Type} (f : α → Option β) :
    ∀ l : List α, (∀ x ∈ l, (f x).isSome) → (l.filterMap f).length = l.length := by
  intro l
  induction l with
  | nil => intro _; rfl
  | cons x xs ih =>
    intro h
    obtain ⟨e, he⟩ := Option.isSome_iff_exists.mp (h x (by simp))
    simp only [List.filterMap_cons, he, List.length_cons]
    rw [ih fun y hy => h y (List.mem_cons_of_mem _ hy)]

/-- Running the loop through `j` consecutive iterations that all fail, are
not cancelled by the policy, and stay within the wait budget: the loop state
advances by `j` attempts, appending the `j` errors and the `j` truncated
delays in order. -/
lemma doLoop_advance (d : Doer ε) (fn : ℕ → Option ε) (u : ℕ → ℚ) :
    ∀ (j fuel a : ℕ) (errs : List ε) (slept : List ℤ),
      j ≤ fuel →
      (∀ i, i < j → (fn (a + i)).isSome) →
      (∀ i, i < j → ∀ e, fn (a + i) = some e → d.retryBlocks e = false) →
      (∀ i, i < j → sumDelays d u (a + i + 1) ≤ d.maxWait) →
      doLoop d fn u fuel a (sumDelays d u a) errs slept =
        doLoop d fn u (fuel - j) (a + j) (sumDelays d u (a + j))
          (errs ++ (List.range' a j).filterMap fn)
          (slept ++ (List.range' a j).map (delaySeq d u)) := by
  intro j
  induction j with
  | zero =>
    intro fuel a errs slept _ _ _ _
    simp [List.range']
  | succ j ih =>
    intro fuel a errs slept hle hfail hpol hbud
    obtain ⟨f, rfl⟩ : ∃ f, fuel = f + 1 :=
      ⟨fuel - 1, by omega⟩
    obtain ⟨e, he⟩ := Option.isSome_iff_exists.mp (hfail 0 (Nat.succ_pos j))
    rw [Nat.add_zero] at he
    have hnb : d.retryBlocks e = false := hpol 0 (Nat.succ_pos j) e (by rwa [Nat.add_zero])
    have hstep : sumDelays d u a + delaySeq d u a = sumDelays d u (a + 1) := rfl
    have hbud0 : sumDelays d u (a + 1) ≤ d.maxWait := by
      have := hbud 0 (Nat.succ_pos j)
      rwa [Nat.add_zero] at this
    have hnotlt : ¬ d.maxWait < sumDelays d u a + goTrunc (computeSleep d a (u a)) := by
      rw [show goTrunc (computeSleep d a (u a)) = delaySeq d u a from rfl, hstep]
      exact not_lt.mpr hbud0
    rw [doLoop, he]
    simp only [hnb, Bool.false_eq_true, if_false, hnotlt]
    have hrec := ih f (a + 1) (errs ++ [e]) (slept ++ [goTrunc (computeSleep d a (u a))])
      (by omega)
      (fun i hi => by
        have := hfail (i + 1) (by omega)
        rwa [show a + (i + 1) = a + 1 + i by omega] at this)
      (fun i hi e2 he2 => by
        refine hpol (i + 1) (by omega) e2 ?_
        rwa [show a + (i + 1) = a + 1 + i by omega])
      (fun i hi => by
        have := hbud (i + 1) (by omega)
        rwa [show a + (i + 1) = a + 1 + i by omega] at this)
    rw [show sumDelays d u a + goTrunc (computeSleep d a (u a)) = sumDelays d u (a + 1)
      from hstep, hrec]
    have hfuel : f + 1 - (j + 1) = f - j := by omega
    have hatt : a + 1 + j = a + (j + 1) := by omega
    have hw : List.range' a (j + 1) = a :: List.range' (a + 1) j := List.range'_succ a j 1
    rw [hfuel, hatt, hw]
    simp only [List.filterMap_cons, he, List.map_cons]
    rw [show delaySeq d u a = goTrunc (computeSleep d a (u a)) from rfl]
    simp

/-- Characterisation of the timeout outcome for a loop whose operation
always fails and whose policy never cancels: it times out exactly when some
reachable running total strictly exceeds `maxWait`. -/
lemma doLoop_timedOut_iff (d : Doer ε) (fn : ℕ → Option ε) (u : ℕ → ℚ)
    (hfail : ∀ k, (fn k).isSome) (hpol : ∀ e, d.retryBlocks e = false) :
    ∀ (fuel a : ℕ) (errs : List ε) (slept : List ℤ),
      (doLoop d fn u fuel a (sumDelays d u a) errs slept).outcome = .timedOut ↔
        ∃ m, a ≤ m ∧ m < a + fuel ∧ d.maxWait < sumDelays d u (m + 1) := by
  intro fuel
  induction fuel with
  | zero =>
    intro a errs slept
    constructor
    · intro h
      exact absurd h (by simp [doLoop])
    · rintro ⟨m, h1, h2, _⟩
      omega
  | succ f ih =>
    intro a errs slept
    obtain ⟨e, he⟩ := Option.isSome_iff_exists.mp (hfail a)
    have hstep : sumDelays d u a + goTrunc (computeSleep d a (u a)) = sumDelays d u (a + 1) :=
      rfl
    rw [doLoop, he]
    simp only [hpol e, Bool.false_eq_true, if_false, hstep]
    by_cases hlt : d.maxWait < sumDelays d u (a + 1)
    · simp only [hlt, if_true]
      constructor
      · intro _
        exact ⟨a, le_refl a, by omega, hlt⟩
      · intro _
        trivial
    · simp only [hlt, if_false]
      rw [ih (a + 1) (errs ++ [e]) (slept ++ [goTrunc (computeSleep d a (u a))])]
      constructor
      · rintro ⟨m, h1, h2, h3⟩
        exact ⟨m, by omega, by omega, h3⟩
      · rintro ⟨m, h1, h2, h3⟩
        refine ⟨m, ?_, by omega, h3⟩
        rcases Nat.eq_or_lt_of_le h1 with h | h
        · subst h
          exact absurd h3 hlt
        · omega

/-- Specialisation of `doLoop_advance` to a run from the start: after `j`
failing, uncancelled, within-budget iterations the loop state is the `j`
errors and `j` truncated delays, at attempt index `j`. -/
lemma doLoop_prefix (d : Doer ε) (fn : ℕ → Option ε) (u : ℕ → ℚ) (j n : ℕ)
    (hj : j ≤ n)
    (hfail : ∀ k, k < j → (fn k).isSome)
    (hpol : ∀ i, i < j → ∀ e, fn i = some e → d.retryBlocks e = false)
    (hbud : ∀ m, m < j → sumDelays d u (m + 1) ≤ d.maxWait) :
    doLoop d fn u n 0 0 [] [] =
      doLoop d fn u (n - j) j (sumDelays d u j)
        ((List.range j).filterMap fn) ((List.range j).map (delaySeq d u)) := by
  have h := doLoop_advance d fn u j n 0 [] [] hj
    (fun i hi => by simpa using hfail i hi)
    (fun i hi e he => hpol i hi e (by simpa using he))
    (fun i hi => by simpa using hbud i hi)
  simpa [List.range_eq_range'] using h

/-! ## Claim theorems -/

/-- C7: calling `Do` with an absent (`nil`) operation returns an empty
failure history and the distinct `NoOperationSupplied` outcome, performs
zero invocations of the operation and no sleeping, for every configuration
and policy. -/
theorem do_nil_operation (d : Doer ε) (stream : ℤ → ℕ → ℚ) :
    Do d none stream = ⟨[], .noFunc, [], 0⟩ :=
  rfl

/-- C10: `Do` never modifies the `Doer` it is called on — the call returns
the caller's cell unchanged (value receiver), even though the body does
increment the seed field of its local copy. -/
theorem do_preserves_retrier (d : Doer ε) (fn : Option (ℕ → Option ε))
    (stream : ℤ → ℕ → ℚ) :
    (callDo d fn stream).1 = d ∧ (seedUpdate d).seed = d.seed + 1 :=
  ⟨rfl, rfl⟩

/-- C1 (refuting the claimed invariant): because the receiver is a value,
the seed increment acts on a copy, so a call on the cell left by a previous
call derives exactly the same generator seed `d.seed + 1` as the previous
call did — consecutive executions of the same `Doer` get identical
pseudo-random streams, not distinct ones. -/
theorem genSeed_constant_across_calls (d : Doer ε)
    (fn : Option (ℕ → Option ε)) (stream : ℤ → ℕ → ℚ) :
    genSeed (callDo d fn stream).1 = d.seed + 1 ∧ genSeed d = d.seed + 1 :=
  ⟨rfl, rfl⟩

/-- C4: `New` succeeds iff all six invariants hold, and whenever the spec's
first-violated-field computation names a field, `New` returns exactly that
field's error (checks in the fixed order attempts, base, maxInterval-vs-base,
maxWait-vs-base, exponent, jitter; first failure wins). -/
theorem new_validates (now : ℤ) (retry : Option (ε → Bool)) (o : Options) :
    ((∃ dd, New now retry o = .ok dd) ↔ validOptions o) ∧
      (∀ c, specFirstViolation o = some c → New now retry o = .error c) := by
  constructor
  · unfold New validOptions
    split_ifs with h1 h2 h3 h4 h5 h6
    · simp only [reduceCtorEq, exists_false, false_iff]
      rintro ⟨ha, -⟩
      omega
    · simp only [reduceCtorEq, exists_false, false_iff]
      rintro ⟨-, hb, -⟩
      omega
    · simp only [reduceCtorEq, exists_false, false_iff]
      rintro ⟨-, -, hmi, -⟩
      omega
    · simp only [reduceCtorEq, exists_false, false_iff]
      rintro ⟨-, -, -, hmw, -⟩
      omega
    · simp only [reduceCtorEq, exists_false, false_iff]
      rintro ⟨-, -, -, -, he, -⟩
      linarith
    · simp only [reduceCtorEq, exists_false, false_iff]
      rintro ⟨-, -, -, -, -, hj0, hj1⟩
      rcases h6 with h | h
      · linarith
      · linarith
    · simp only [Except.ok.injEq, exists_eq', true_iff]
      push_neg at h6
      refine ⟨by omega, by omega, by omega, by omega, by linarith, h6.1, h6.2⟩
  · intro c hc
    unfold specFirstViolation at hc
    simp only [not_le, not_lt, not_and_or] at hc
    unfold New
    split_ifs at hc ⊢ <;> simp_all

/-- Witness for C4: a fully valid configuration constructs, and a
configuration violating both the attempts and jitter invariants fails on
`attempts`, the first field in the fixed order. -/
theorem new_validates_witness :
    (∃ dd : Doer ℕ, New 7 none
        { attempts := 3, base := 1, maxInterval := 2, maxWait := 2,
          exponent := 1, jitter := 0 } = .ok dd) ∧
      New 7 (none : Option (ℕ → Bool))
        { attempts := 0, base := 1, maxInterval := 2, maxWait := 2,
          exponent := 1, jitter := 5 } = .error .attempts := by
  constructor
  · exact (new_validates 7 none _).1.mpr
      ⟨by decide, by decide, by decide, by decide, by decide, by decide,
        by decide⟩
  · exact (new_validates 7 none _).2 .attempts (by decide)

/-- C6: if the operation fails on the first invocation and the configured
retry policy rejects that error, `Do` stops at once — exactly one
invocation, no sleeping, the `Cancelled` outcome, and a one-element failure
history. -/
theorem do_cancelled_first_attempt (d : Doer ε) (fn : ℕ → Option ε)
    (stream : ℤ → ℕ → ℚ) (e : ε) (p : ε → Bool)
    (hatt : 1 ≤ d.attempts) (hf : fn 0 = some e)
    (hp : d.retry = some p) (hpe : p e = false) :
    Do d (some fn) stream = ⟨[e], .cancelled, [], 1⟩ := by
  have hDo : Do d (some fn) stream =
      doLoop d fn (stream (genSeed d)) d.attempts.toNat 0 0 [] [] := rfl
  obtain ⟨m, hm⟩ : ∃ m, d.attempts.toNat = m + 1 := ⟨d.attempts.toNat - 1, by omega⟩
  have hb : d.retryBlocks e = true := by simp [Doer.retryBlocks, hp, hpe]
  rw [hDo, hm, doLoop, hf]
  simp [hb]

/-- Witness for C6: a `Doer` whose policy rejects everything, and an
operation that always fails, cancel after exactly one invocation with no
sleep. -/
theorem do_cancelled_first_attempt_witness :
    Do ({ base := 1, maxInterval := 1, exponent := 1, jitter := 0,
          attempts := 3, maxWait := 10, seed := 0,
          retry := some fun _ => false } : Doer ℕ)
      (some fun _ => some 5) (fun _ _ => 0) = ⟨[5], .cancelled, [], 1⟩ :=
  do_cancelled_first_attempt _ _ _ 5 (fun _ => false) (by decide) rfl rfl rfl

/-- C3: with `attempts = n`, an always-failing operation, no policy, and a
wait budget no prefix of delays exceeds, `Do` performs exactly `n`
invocations and returns `MaxAttemptsReached` with the `n` errors in
invocation order. -/
theorem do_max_attempts_exhausted (d : Doer ε) (fn : ℕ → Option ε)
    (stream : ℤ → ℕ → ℚ)
    (hpol : d.retry = none)
    (hfail : ∀ k, k < d.attempts.toNat → (fn k).isSome)
    (hbud : ∀ m, m < d.attempts.toNat →
      sumDelays d (stream (genSeed d)) (m + 1) ≤ d.maxWait) :
    Do d (some fn) stream =
        ⟨(List.range d.attempts.toNat).filterMap fn, .maxAttempts,
          (List.range d.attempts.toNat).map (delaySeq d (stream (genSeed d))),
          d.attempts.toNat⟩ ∧
      ((List.range d.attempts.toNat).filterMap fn).length = d.attempts.toNat := by
  constructor
  · have hDo : Do d (some fn) stream =
        doLoop d fn (stream (genSeed d)) d.attempts.toNat 0 0 [] [] := rfl
    rw [hDo, doLoop_prefix d fn (stream (genSeed d)) d.attempts.toNat
      d.attempts.toNat (le_refl _) hfail
      (fun i _ e _ => by simp [Doer.retryBlocks, hpol]) hbud]
    rw [Nat.sub_self, doLoop]
  · rw [length_filterMap_of_isSome fn _
      (fun x hx => hfail x (List.mem_range.mp hx)), List.length_range]

/-- Witness for C3: three attempts, always-failing operation, ample budget:
all three errors are returned in order with `MaxAttemptsReached`. -/
theorem do_max_attempts_exhausted_witness :
    Do ({ base := 1, maxInterval := 1, exponent := 1, jitter := 0,
          attempts := 3, maxWait := 10, seed := 0,
          retry := none } : Doer ℕ)
        (some fun k => some k) (fun _ _ => 0) =
      ⟨[0, 1, 2], .maxAttempts, [1, 1, 1], 3⟩ := by
  have h := do_max_attempts_exhausted
    ({ base := 1, maxInterval := 1, exponent := 1, jitter := 0,
       attempts := 3, maxWait := 10, seed := 0,
       retry := none } : Doer ℕ)
    (fun k => some k) (fun _ _ => 0) rfl
    (fun k _ => rfl)
    (by
      intro m hm
      have hm3 : m < 3 := hm
      interval_cases m <;>
        simp [sumDelays, delaySeq, computeSleep, goTrunc])
  rw [h.1]
  simp [delaySeq, computeSleep, goTrunc, List.range_succ]

/-- C5: if the operation first succeeds on its `k`-th invocation (after
`k − 1` failures the policy lets pass and whose delays stay within budget),
`Do` returns the `Success` outcome together with all `k − 1` prior errors in
invocation order, having invoked the operation exactly `k` times. -/
theorem do_success_kth_invocation (d : Doer ε) (fn : ℕ → Option ε)
    (stream : ℤ → ℕ → ℚ) (k : ℕ)
    (hk1 : 1 ≤ k) (hk2 : k ≤ d.attempts.toNat)
    (hfail : ∀ j, j < k - 1 → (fn j).isSome)
    (hsucc : fn (k - 1) = none)
    (hpol : ∀ j, j < k - 1 → ∀ e, fn j = some e → d.retryBlocks e = false)
    (hbud : ∀ m, m < k - 1 → sumDelays d (stream (genSeed d)) (m + 1) ≤ d.maxWait) :
    Do d (some fn) stream =
        ⟨(List.range (k - 1)).filterMap fn, .success,
          (List.range (k - 1)).map (delaySeq d (stream (genSeed d))), k⟩ ∧
      ((List.range (k - 1)).filterMap fn).length = k - 1 := by
  constructor
  · have hDo : Do d (some fn) stream =
        doLoop d fn (stream (genSeed d)) d.attempts.toNat 0 0 [] [] := rfl
    rw [hDo, doLoop_prefix d fn (stream (genSeed d)) (k - 1) d.attempts.toNat
      (by omega) hfail hpol hbud]
    obtain ⟨m, hm⟩ : ∃ m, d.attempts.toNat - (k - 1) = m + 1 :=
      ⟨d.attempts.toNat - k, by omega⟩
    rw [hm, doLoop, hsucc]
    have : k - 1 + 1 = k := by omega
    rw [this]
  · rw [length_filterMap_of_isSome fn _
      (fun x hx => hfail x (List.mem_range.mp hx)), List.length_range]

/-- Witness for C5 with `k = 3`: two failures then success yields `Success`
with exactly the two prior errors, after three invocations. -/
theorem do_success_kth_invocation_witness :
    Do ({ base := 1, maxInterval := 1, exponent := 1, jitter := 0,
          attempts := 3, maxWait := 10, seed := 0,
          retry := none } : Doer ℕ)
        (some fun j => if j < 2 then some (j + 7) else none) (fun _ _ => 0) =
      ⟨[7, 8], .success, [1, 1], 3⟩ := by
  have h := do_success_kth_invocation
    ({ base := 1, maxInterval := 1, exponent := 1, jitter := 0,
       attempts := 3, maxWait := 10, seed := 0,
       retry := none } : Doer ℕ)
    (fun j => if j < 2 then some (j + 7) else none) (fun _ _ => 0) 3
    (by decide) (by decide)
    (by decide)
    (by decide)
    (fun j hj e _ => by simp [Doer.retryBlocks])
    (by
      intro m hm
      have hm2 : m < 2 := hm
      interval_cases m <;>
        simp [sumDelays, delaySeq, computeSleep, goTrunc])
  rw [h.1]
  simp [delaySeq, computeSleep, goTrunc, List.range_succ]

/-- C9: for an always-failing operation the policy lets pass, `Do` returns
`TimedOut` exactly when some prefix of the accumulated (post-jitter,
duration-truncated) delays strictly exceeds `maxWait`; in particular a
running total exactly equal to `maxWait` does not time out. -/
theorem do_timedOut_iff_budget_exceeded (d : Doer ε) (fn : ℕ → Option ε)
    (stream : ℤ → ℕ → ℚ)
    (hfail : ∀ k, (fn k).isSome) (hpol : ∀ e, d.retryBlocks e = false) :
    (Do d (some fn) stream).outcome = .timedOut ↔
      ∃ m, m < d.attempts.toNat ∧
        d.maxWait < sumDelays d (stream (genSeed d)) (m + 1) := by
  have hDo : Do d (some fn) stream =
      doLoop d fn (stream (genSeed d)) d.attempts.toNat 0 0 [] [] := rfl
  rw [hDo]
  have h := doLoop_timedOut_iff d fn (stream (genSeed d)) hfail hpol
    d.attempts.toNat 0 [] []
  simpa using h

/-- Concrete always-failing scenario for the C9 witness. -/
def doerC9 : Doer ℕ :=
  { base := 1, maxInterval := 1, exponent := 1, jitter := 0,
    attempts := 3, maxWait := 10, seed := 0, retry := none }

/-- Witness for C9: an instance of the characterisation at a concrete
always-failing configuration. -/
theorem do_timedOut_iff_budget_exceeded_witness :
    (Do doerC9 (some fun _ => some 0) (fun _ _ => 0)).outcome = .timedOut ↔
      ∃ m, m < doerC9.attempts.toNat ∧
        doerC9.maxWait <
          sumDelays doerC9 ((fun _ _ => (0:ℚ)) (genSeed doerC9)) (m + 1) :=
  do_timedOut_iff_budget_exceeded doerC9 (fun _ => some 0) (fun _ _ => 0)
    (fun _ => rfl) (fun _ => rfl)

/-- C8: the delay before the next attempt is
`min maxInterval (base·exponent^i) · (1 − u·jitter)` for the attempt's draw
`u ∈ [0,1)`; under the configuration invariants it satisfies
`0 ≤ delay ≤ capped ≤ maxInterval`, and with `jitter = 0` it equals the
capped value exactly. -/
theorem computeSleep_formula_and_bounds (d : Doer ε) (i : ℕ) (u : ℚ)
    (hb : 0 < d.base) (hmi : d.base ≤ d.maxInterval) (hexp : 1 ≤ d.exponent)
    (hj0 : 0 ≤ d.jitter) (hj1 : d.jitter ≤ 1) (hu0 : 0 ≤ u) (hu1 : u < 1) :
    computeSleep d i u =
        min d.maxInterval (d.base * d.exponent ^ i) * (1 - u * d.jitter) ∧
      0 ≤ computeSleep d i u ∧
      computeSleep d i u ≤ min d.maxInterval (d.base * d.exponent ^ i) ∧
      min d.maxInterval (d.base * d.exponent ^ i) ≤ d.maxInterval ∧
      (d.jitter = 0 →
        computeSleep d i u = min d.maxInterval (d.base * d.exponent ^ i)) := by
  have hepos : (0:ℚ) < d.exponent := lt_of_lt_of_le one_pos hexp
  have hcap0 : 0 ≤ min d.maxInterval (d.base * d.exponent ^ i) :=
    le_min (by linarith) (le_of_lt (mul_pos hb (pow_pos hepos i)))
  have huj0 : 0 ≤ u * d.jitter := mul_nonneg hu0 hj0
  have huj1 : u * d.jitter < 1 := by
    calc u * d.jitter ≤ u * 1 := mul_le_mul_of_nonneg_left hj1 hu0
      _ = u := mul_one u
      _ < 1 := hu1
  refine ⟨rfl, ?_, ?_, min_le_left _ _, ?_⟩
  · exact mul_nonneg hcap0 (by linarith)
  · calc computeSleep d i u
        ≤ min d.maxInterval (d.base * d.exponent ^ i) * 1 :=
          mul_le_mul_of_nonneg_left (by linarith) hcap0
      _ = min d.maxInterval (d.base * d.exponent ^ i) := mul_one _
  · intro hj
    unfold computeSleep
    rw [hj, mul_zero, sub_zero, mul_one]

/-- Concrete configuration for the C8 witness. -/
def doerC8 : Doer ℕ :=
  { base := 1, maxInterval := 2, exponent := 1, jitter := 0,
    attempts := 3, maxWait := 10, seed := 0, retry := none }

/-- Witness for C8 at a concrete configuration and draw. -/
theorem computeSleep_formula_and_bounds_witness :
    computeSleep doerC8 0 0 =
        min doerC8.maxInterval (doerC8.base * doerC8.exponent ^ (0:ℕ)) *
          (1 - 0 * doerC8.jitter) ∧
      (0:ℚ) ≤ computeSleep doerC8 0 0 ∧
      computeSleep doerC8 0 0 ≤
        min doerC8.maxInterval (doerC8.base * doerC8.exponent ^ (0:ℕ)) ∧
      min doerC8.maxInterval (doerC8.base * doerC8.exponent ^ (0:ℕ)) ≤
        doerC8.maxInterval ∧
      (doerC8.jitter = 0 →
        computeSleep doerC8 0 0 =
          min doerC8.maxInterval (doerC8.base * doerC8.exponent ^ (0:ℕ))) :=
  computeSleep_formula_and_bounds doerC8 0 0 (by decide) (by decide)
    (by decide) (by decide) (by decide) (by decide) (by decide)

/-- The C2 scenario: `maxWait = maxInterval = base`, `jitter = 0`, an
always-failing operation, no policy. -/
def doerC2 : Doer ℕ :=
  { base := 1, maxInterval := 1, exponent := 1, jitter := 0,
    attempts := 3, maxWait := 1, seed := 0, retry := none }

/-- Counterexample to C2 as stated: in the scenario `maxWait = maxInterval
= base`, `jitter = 0`, always-failing operation, `Do` does return
`TimedOut`, but with TWO errors in the failure history, not exactly one —
the first delay brings the running total exactly to `maxWait`, which the
strict comparison lets pass, so a second invocation happens before the
timeout. -/
theorem timeout_after_one_attempt_cex :
    (Do doerC2 (some fun _ => some 0) (fun _ _ => 0)).outcome = .timedOut ∧
      ¬ (Do doerC2 (some fun _ => some 0) (fun _ _ => 0)).errs.length = 1 ∧
      (Do doerC2 (some fun _ => some 0) (fun _ _ => 0)).errs.length = 2 := by
  have h : Do doerC2 (some fun _ => some 0) (fun _ _ => 0) =
      ⟨[0, 0], .timedOut, [1], 2⟩ := by
    simp [Do, doerC2, doLoop, Doer.retryBlocks, computeSleep, goTrunc]
  rw [h]
  refine ⟨rfl, by decide, rfl⟩

/-- C2 as amended: in the `maxWait = maxInterval = base`, `jitter = 0`,
always-failing, non-cancelling scenario with at least two attempts allowed,
`Do` returns `TimedOut` after exactly TWO invocations, with two errors in
the history, having slept exactly once — for `maxWait` exactly (the first
delay equals the budget and the strict comparison admits it). -/
theorem timeout_on_second_attempt_when_budget_equals_base
    (d : Doer ε) (fn : ℕ → Option ε) (stream : ℤ → ℕ → ℚ)
    (hj : d.jitter = 0) (hmi : d.maxInterval = d.base)
    (hmw : (d.maxWait : ℚ) = d.base) (hw : 0 < d.maxWait)
    (hexp : 1 ≤ d.exponent) (hatt : 2 ≤ d.attempts)
    (hfail : ∀ k, k < 2 → (fn k).isSome)
    (hpol : ∀ e, d.retryBlocks e = false) :
    (Do d (some fn) stream).outcome = .timedOut ∧
      (Do d (some fn) stream).errs.length = 2 ∧
      (Do d (some fn) stream).calls = 2 ∧
      (Do d (some fn) stream).slept = [d.maxWait] := by
  obtain ⟨e0, he0⟩ := Option.isSome_iff_exists.mp (hfail 0 (by omega))
  obtain ⟨e1, he1⟩ := Option.isSome_iff_exists.mp (hfail 1 (by omega))
  obtain ⟨m, hm⟩ : ∃ m, d.attempts.toNat = m + 1 + 1 :=
    ⟨d.attempts.toNat - 2, by omega⟩
  have hbase : (0:ℚ) < d.base := by
    rw [← hmw]
    exact_mod_cast hw
  have hs0 : computeSleep d 0 (stream (genSeed d) 0) = d.base := by
    unfold computeSleep
    rw [hj, hmi]
    simp
  have hs1 : computeSleep d 1 (stream (genSeed d) 1) = d.base := by
    unfold computeSleep
    rw [hj, hmi, pow_one, min_eq_left (le_mul_of_one_le_right hbase.le hexp)]
    simp
  have htr : goTrunc d.base = d.maxWait := by
    rw [← hmw, goTrunc_intCast]
  have key : Do d (some fn) stream = ⟨[e0, e1], .timedOut, [d.maxWait], 2⟩ := by
    have hDo : Do d (some fn) stream =
        doLoop d fn (stream (genSeed d)) d.attempts.toNat 0 0 [] [] := rfl
    rw [hDo, hm, doLoop, he0]
    simp only [hpol e0, Bool.false_eq_true, if_false, hs0, htr, zero_add,
      List.nil_append]
    rw [if_neg (by omega), doLoop, he1]
    simp only [hpol e1, Bool.false_eq_true, if_false, hs1, htr]
    rw [if_pos (by omega)]
    simp
  rw [key]
  exact ⟨rfl, rfl, rfl, rfl⟩

/-- Witness for the amended C2 at the concrete scenario: timeout after
exactly two invocations. -/
theorem timeout_on_second_attempt_witness :
    (Do doerC2 (some fun k => some (k + 3)) (fun _ _ => 0)).outcome
        = .timedOut ∧
      (Do doerC2 (some fun k => some (k + 3)) (fun _ _ => 0)).errs.length = 2 ∧
      (Do doerC2 (some fun k => some (k + 3)) (fun _ _ => 0)).calls = 2 ∧
      (Do doerC2 (some fun k => some (k + 3)) (fun _ _ => 0)).slept =
        [doerC2.maxWait] :=
  timeout_on_second_attempt_when_budget_equals_base doerC2
    (fun k => some (k + 3)) (fun _ _ => 0) rfl rfl (by decide) (by decide)
    (by decide) (by decide) (fun k _ => rfl) (fun e => rfl)

end Retry
